import Mathlib

/-!
Verification development for the resume-builder rendering layer.

The development shallowly embeds the pure logic of the repository:

* the "additional" section layout resolution that is duplicated verbatim in
  the keyword-highlight view (`HighlightedResumeView`), the modern two-column
  template (`ResumeModernTwoColumn`) and the swiss single-column template
  (`AdditionalSection`);
* the drag-to-reorder handler `handleDragEnd` of the additional form;
* the immutable field-update handlers `handleChange` (personal-info form) and
  `handleArrayChange` (additional form);
* the keyword segmenter `segmentTextByKeywords` (modelled from the spec,
  since `lib/utils/keyword-matcher` itself is not part of the corpus).

JavaScript numbers appearing in the layout logic (`skillsLeftColumnRatio`,
`skillsColumnGapRem`) are embedded as rationals: the only operations the code
performs on them are `Math.min`, `Math.max`, defaulting via `??` and the
subtraction `1 - leftRatio`, all of which are exact on IEEE doubles of this
magnitude and agree with the rational operations.
-/

namespace Resu

/-- Optional per-category label overrides, the embedding of the TS record
`additionalSubsectionLabels?: Partial<Record<AdditionalSectionKey, string>>`. -/
structure SubsectionLabels where
  technicalSkills : Option String := none
  languages : Option String := none
  certificationsTraining : Option String := none
  awards : Option String := none
  creativeTools : Option String := none
deriving DecidableEq, Repr

/-- Embedding of the TS `AdditionalInfo` object: five optional category item
lists, an optional display order (kept as plain strings so that unknown keys
arising from data-shape drift are representable), optional label overrides,
and the two optional numeric layout parameters. -/
structure AdditionalInfo where
  technicalSkills : Option (List String) := none
  languages : Option (List String) := none
  certificationsTraining : Option (List String) := none
  awards : Option (List String) := none
  creativeTools : Option (List String) := none
  additionalSectionOrder : Option (List String) := none
  additionalSubsectionLabels : Option SubsectionLabels := none
  skillsLeftColumnRatio : Option ℚ := none
  skillsColumnGapRem : Option ℚ := none
deriving DecidableEq, Repr

/-- Modelled from the spec: the constant `DEFAULT_ADDITIONAL_SECTION_ORDER` is
imported by every template from `components/dashboard/resume-component`, a
module outside the corpus; the spec fixes its value to
`[technicalSkills, languages, certificationsTraining, awards, creativeTools]`. -/
def DEFAULT_ADDITIONAL_SECTION_ORDER : List String :=
  ["technicalSkills", "languages", "certificationsTraining", "awards", "creativeTools"]

/-- Embedding of the property lookup `additional[key] ?? []` performed by
every template when building rows.  The five category keys read their item
lists.  The own property `additionalSectionOrder` is itself an array of
strings: for that drifted key the lookup returns the order array (the value
is not nullish, so `?? []` does not fire) and a row can be produced from it.
The remaining own properties (`additionalSubsectionLabels` and the two
numeric fields) are non-nullish but have no numeric `length`, so the
`items.length > 0` row test fails for them exactly as it does for `[]`, and
they are embedded as `[]`; keys absent from the object read as
`undefined ?? [] = []`.  Lookups that would traverse the JS prototype chain
(such as `constructor`) are outside the embedded object model. -/
def itemsOf (additional : AdditionalInfo) (key : String) : List String :=
  if key = "technicalSkills" then additional.technicalSkills.getD []
  else if key = "languages" then additional.languages.getD []
  else if key = "certificationsTraining" then additional.certificationsTraining.getD []
  else if key = "awards" then additional.awards.getD []
  else if key = "creativeTools" then additional.creativeTools.getD []
  else if key = "additionalSectionOrder" then additional.additionalSectionOrder.getD []
  else []

/-- The whitespace class stripped by the JS `String.prototype.trim`: tab, the
line terminators LF, CR, LS and PS, vertical tab, form feed, space, no-break
space, the Unicode space separators, and the zero-width no-break space. -/
def isJsWhitespace (c : Char) : Bool :=
  c.val = 0x0009 || c.val = 0x000A || c.val = 0x000B || c.val = 0x000C ||
  c.val = 0x000D || c.val = 0x0020 || c.val = 0x00A0 || c.val = 0x1680 ||
  (0x2000 ≤ c.val && c.val ≤ 0x200A) || c.val = 0x2028 || c.val = 0x2029 ||
  c.val = 0x202F || c.val = 0x205F || c.val = 0x3000 || c.val = 0xFEFF

/-- Embedding of the JS `String.prototype.trim` used by the label resolution
and the form handlers: drop JS-whitespace characters from both ends of the
character list.  (The built-in `String.trim` strips only a narrower ASCII
class and is defined through well-founded auxiliaries the kernel cannot
evaluate, so the embedding carries its own character class and recurses
structurally.) -/
def jsTrim (s : String) : String :=
  String.mk (((s.data.dropWhile isJsWhitespace).reverse.dropWhile
    isJsWhitespace).reverse)

/-- Embedding of the label pattern `override?.trim() || defaultLabel` shared by
all templates: a missing override, or one that trims to the empty string (the
empty string is falsy in JS), falls back to the default label. -/
def trimOrDefault (override : Option String) (defaultLabel : String) : String :=
  match override with
  | none => defaultLabel
  | some s => if jsTrim s = "" then defaultLabel else jsTrim s

/-- Lookup of `additional.additionalSubsectionLabels?.[key]` for the five known
category keys; unknown keys read as `undefined`. -/
def subLabel (additional : AdditionalInfo) (key : String) : Option String :=
  match additional.additionalSubsectionLabels with
  | none => none
  | some ls =>
    if key = "technicalSkills" then ls.technicalSkills
    else if key = "languages" then ls.languages
    else if key = "certificationsTraining" then ls.certificationsTraining
    else if key = "awards" then ls.awards
    else if key = "creativeTools" then ls.creativeTools
    else none

/-- Embedding of the `labelByKey` record each template builds and then indexes
with `labelByKey[key]`: the record has exactly the five category entries, each
of the source shape `additionalSubsectionLabels?.k?.trim() || defaultLabels.k`;
indexing it with any other key reads as `undefined`, embedded as `none`.  A
drifted order entry such as `additionalSectionOrder` does reach this lookup
and stores the `undefined` as its row label. -/
def labelByKey (additional : AdditionalInfo) (defaultLabels : String → String)
    (key : String) : Option String :=
  if key = "technicalSkills" ∨ key = "languages" ∨ key = "certificationsTraining" ∨
      key = "awards" ∨ key = "creativeTools" then
    some (trimOrDefault (subLabel additional key) (defaultLabels key))
  else none

/-- One visible row of the additional block: the category key, the resolved
display label (`none` embeds the `undefined` label a drifted key stores) and
the non-empty item list. -/
structure Row where
  key : String
  label : Option String
  items : List String
deriving DecidableEq, Repr

/-- The resolved two-column layout of the additional block: the left and right
row lists, the clamped left-column ratio, the right fraction `1 - leftRatio`
used in the grid template, and the clamped column gap. -/
structure Layout where
  leftRows : List Row
  rightRows : List Row
  leftRatio : ℚ
  rightFraction : ℚ
  gapRem : ℚ
deriving DecidableEq, Repr

/-- Embedding of the order resolution
`additional.additionalSectionOrder ?? DEFAULT_ADDITIONAL_SECTION_ORDER`
appearing identically in all templates. -/
def resolvedOrder (additional : AdditionalInfo) : List String :=
  additional.additionalSectionOrder.getD DEFAULT_ADDITIONAL_SECTION_ORDER

/-- Embedding of the row construction shared by all templates:
`order.map(key => items.length > 0 ? ({key, label, items}) : null).filter(r => r !== null)`. -/
def resolvedRows (additional : AdditionalInfo) (defaultLabels : String → String) : List Row :=
  (resolvedOrder additional).filterMap (fun key =>
    let items := itemsOf additional key
    if 0 < items.length then
      some { key := key, label := labelByKey additional defaultLabels key, items := items }
    else none)

/-- Embedding of `Math.min(0.75, Math.max(0.25, additional.skillsLeftColumnRatio ?? 0.5))`. -/
def resolvedLeftRatio (additional : AdditionalInfo) : ℚ :=
  min 0.75 (max 0.25 (additional.skillsLeftColumnRatio.getD 0.5))

/-- Embedding of `Math.min(2.5, Math.max(0.5, additional.skillsColumnGapRem ?? 1.25))`. -/
def resolvedGapRem (additional : AdditionalInfo) : ℚ :=
  min 2.5 (max 0.5 (additional.skillsColumnGapRem.getD 1.25))

/-- Layout resolution of the additional block in `HighlightedResumeView`
(part_000, lines 135-191): order, labels, row filtering, `Math.ceil(n/2)`
split into left and right rows (`Math.ceil(n/2)` on a natural `n` is
`(n + 1) / 2`), clamped ratio and gap; `none` embeds the `return null` taken
when no row survives filtering. -/
def highlightedResumeViewLayout (additional : AdditionalInfo)
    (defaultLabels : String → String) : Option Layout :=
  let order : List String :=
    additional.additionalSectionOrder.getD DEFAULT_ADDITIONAL_SECTION_ORDER
  let rows : List Row := order.filterMap (fun key =>
    let items := itemsOf additional key
    if 0 < items.length then
      some { key := key, label := labelByKey additional defaultLabels key, items := items }
    else none)
  if rows.length = 0 then none
  else
    let mid := (rows.length + 1) / 2
    some {
      leftRows := rows.take mid
      rightRows := rows.drop mid
      leftRatio := min 0.75 (max 0.25 (additional.skillsLeftColumnRatio.getD 0.5))
      rightFraction := 1 - min 0.75 (max 0.25 (additional.skillsLeftColumnRatio.getD 0.5))
      gapRem := min 2.5 (max 0.5 (additional.skillsColumnGapRem.getD 1.25)) }

/-- Layout resolution of the additional block in the sidebar of
`ResumeModernTwoColumn` (part_001, lines 372-407); the source lines are
identical to the `HighlightedResumeView` ones, with the default labels drawn
from `headingFallbacks` instead of the translation table. -/
def resumeModernTwoColumnLayout (additional : AdditionalInfo)
    (defaultLabels : String → String) : Option Layout :=
  let order : List String :=
    additional.additionalSectionOrder.getD DEFAULT_ADDITIONAL_SECTION_ORDER
  let rows : List Row := order.filterMap (fun key =>
    let items := itemsOf additional key
    if 0 < items.length then
      some { key := key, label := labelByKey additional defaultLabels key, items := items }
    else none)
  if rows.length = 0 then none
  else
    let mid := (rows.length + 1) / 2
    some {
      leftRows := rows.take mid
      rightRows := rows.drop mid
      leftRatio := min 0.75 (max 0.25 (additional.skillsLeftColumnRatio.getD 0.5))
      rightFraction := 1 - min 0.75 (max 0.25 (additional.skillsLeftColumnRatio.getD 0.5))
      gapRem := min 2.5 (max 0.5 (additional.skillsColumnGapRem.getD 1.25)) }

/-- Layout resolution performed by `AdditionalSection` of the swiss
single-column template (part_002, lines 376-412); again line-for-line the same
computation, with the default labels drawn from `mergedLabels`. -/
def additionalSectionLayout (additional : AdditionalInfo)
    (defaultLabels : String → String) : Option Layout :=
  let order : List String :=
    additional.additionalSectionOrder.getD DEFAULT_ADDITIONAL_SECTION_ORDER
  let rows : List Row := order.filterMap (fun key =>
    let items := itemsOf additional key
    if 0 < items.length then
      some { key := key, label := labelByKey additional defaultLabels key, items := items }
    else none)
  if rows.length = 0 then none
  else
    let mid := (rows.length + 1) / 2
    some {
      leftRows := rows.take mid
      rightRows := rows.drop mid
      leftRatio := min 0.75 (max 0.25 (additional.skillsLeftColumnRatio.getD 0.5))
      rightFraction := 1 - min 0.75 (max 0.25 (additional.skillsLeftColumnRatio.getD 0.5))
      gapRem := min 2.5 (max 0.5 (additional.skillsColumnGapRem.getD 1.25)) }

/-- Bridge: the inline row/split/clamp computation of `additionalSectionLayout`
is definitionally the computation through the named helpers. -/
theorem additionalSectionLayout_eq (additional : AdditionalInfo)
    (defaultLabels : String → String) :
    additionalSectionLayout additional defaultLabels =
      (if (resolvedRows additional defaultLabels).length = 0 then none
       else some {
        leftRows := (resolvedRows additional defaultLabels).take
          (((resolvedRows additional defaultLabels).length + 1) / 2)
        rightRows := (resolvedRows additional defaultLabels).drop
          (((resolvedRows additional defaultLabels).length + 1) / 2)
        leftRatio := resolvedLeftRatio additional
        rightFraction := 1 - resolvedLeftRatio additional
        gapRem := resolvedGapRem additional }) := rfl

/-- Test fixture: an `AdditionalInfo` with every field absent. -/
def emptyAdditional : AdditionalInfo := {}

/-- Test fixture: a default-label table that maps every category key to
itself. -/
def idLabels : String → String := fun key => key

/-- Test fixture: three non-empty categories, everything else defaulted. -/
def threeCats : AdditionalInfo :=
  { technicalSkills := some ["Go", "Rust"]
    languages := some ["English"]
    awards := some ["Award A"] }

/-- C1: for every `AdditionalInfo` input and the same caller-supplied
default-label table, the additional-section layout resolution computed by the
keyword-highlight view and by each resume template is identical: the same
ordered row list (key, label, items), the same left/right column split, the
same clamped left ratio, and the same clamped column gap. -/
theorem claim_C1_layout_resolvers_agree :
    ∀ (additional : AdditionalInfo) (defaultLabels : String → String),
      highlightedResumeViewLayout additional defaultLabels =
          resumeModernTwoColumnLayout additional defaultLabels ∧
        resumeModernTwoColumnLayout additional defaultLabels =
          additionalSectionLayout additional defaultLabels :=
  fun _ _ => ⟨rfl, rfl⟩

/-- C2: for every non-empty filtered row list of length n, the layout resolver
assigns exactly the first `ceil(n/2)` rows to the left column and the
remaining `n - ceil(n/2)` rows to the right column, preserving order within
each column; concatenating left then right reproduces the filtered row list. -/
theorem claim_C2_column_split (additional : AdditionalInfo)
    (defaultLabels : String → String)
    (h : resolvedRows additional defaultLabels ≠ []) :
    ∃ L, additionalSectionLayout additional defaultLabels = some L ∧
      L.leftRows =
        (resolvedRows additional defaultLabels).take
          (((resolvedRows additional defaultLabels).length + 1) / 2) ∧
      L.leftRows.length = ((resolvedRows additional defaultLabels).length + 1) / 2 ∧
      L.rightRows.length =
        (resolvedRows additional defaultLabels).length -
          ((resolvedRows additional defaultLabels).length + 1) / 2 ∧
      L.leftRows ++ L.rightRows = resolvedRows additional defaultLabels := by
  rw [additionalSectionLayout_eq]
  have hne : (resolvedRows additional defaultLabels).length ≠ 0 := by
    simpa [List.length_eq_zero] using h
  rw [if_neg hne]
  refine ⟨_, rfl, rfl, ?_, ?_, ?_⟩
  · rw [List.length_take]
    omega
  · rw [List.length_drop]
  · exact List.take_append_drop _ _

/-- Witness for C2 at a concrete input with three visible rows. -/
theorem claim_C2_column_split_witness :
    resolvedRows threeCats idLabels ≠ [] ∧
      ∃ L, additionalSectionLayout threeCats idLabels = some L ∧
        L.leftRows =
          (resolvedRows threeCats idLabels).take
            (((resolvedRows threeCats idLabels).length + 1) / 2) ∧
        L.leftRows.length = ((resolvedRows threeCats idLabels).length + 1) / 2 ∧
        L.rightRows.length =
          (resolvedRows threeCats idLabels).length -
            ((resolvedRows threeCats idLabels).length + 1) / 2 ∧
        L.leftRows ++ L.rightRows = resolvedRows threeCats idLabels :=
  ⟨by decide, claim_C2_column_split threeCats idLabels (by decide)⟩

/-- Clamp as the spec words it: `clamp(v, lo, hi)` keeps `v` inside
`[lo, hi]`. -/
def specClamp (v lo hi : ℚ) : ℚ := min hi (max lo v)

/-- Test fixture: only the left-column ratio is set, to 0.9. -/
def ratioHi : AdditionalInfo := { skillsLeftColumnRatio := some 0.9 }

/-- Test fixture: only the left-column ratio is set, to 0.1. -/
def ratioLo : AdditionalInfo := { skillsLeftColumnRatio := some 0.1 }

/-- C3: for every `AdditionalInfo` input, including missing or out-of-range
numeric fields, the resolved left-column ratio equals
`clamp(skillsLeftColumnRatio ?? 0.5, 0.25, 0.75)` and thus always lies in
`[0.25, 0.75]`, the right fraction equals 1 minus the left ratio, and the
resolved column gap equals `clamp(skillsColumnGapRem ?? 1.25, 0.5, 2.5)` and
thus always lies in `[0.5, 2.5]`; in particular a ratio of 0.9 resolves to
0.75 and 0.1 resolves to 0.25. -/
theorem claim_C3_numeric_clamping :
    (∀ additional : AdditionalInfo,
      resolvedLeftRatio additional =
          specClamp (additional.skillsLeftColumnRatio.getD 0.5) 0.25 0.75 ∧
        0.25 ≤ resolvedLeftRatio additional ∧ resolvedLeftRatio additional ≤ 0.75 ∧
        resolvedGapRem additional =
          specClamp (additional.skillsColumnGapRem.getD 1.25) 0.5 2.5 ∧
        0.5 ≤ resolvedGapRem additional ∧ resolvedGapRem additional ≤ 2.5) ∧
    (∀ (additional : AdditionalInfo) (defaultLabels : String → String),
      resolvedRows additional defaultLabels ≠ [] →
        ∃ L, additionalSectionLayout additional defaultLabels = some L ∧
          L.leftRatio = resolvedLeftRatio additional ∧
          L.rightFraction = 1 - L.leftRatio ∧
          L.gapRem = resolvedGapRem additional) ∧
    resolvedLeftRatio ratioHi = 0.75 ∧
    resolvedLeftRatio ratioLo = 0.25 := by
  refine ⟨fun additional => ⟨rfl, ?_, ?_, rfl, ?_, ?_⟩, ?_, ?_, ?_⟩
  · exact le_min (by norm_num) (le_max_left _ _)
  · exact min_le_left _ _
  · exact le_min (by norm_num) (le_max_left _ _)
  · exact min_le_left _ _
  · intro additional defaultLabels h
    have hz : (resolvedRows additional defaultLabels).length ≠ 0 := by
      simpa [List.length_eq_zero] using h
    rw [additionalSectionLayout_eq, if_neg hz]
    exact ⟨_, rfl, rfl, rfl, rfl⟩
  · rw [resolvedLeftRatio]
    norm_num [ratioHi, min_def, max_def]
  · rw [resolvedLeftRatio]
    norm_num [ratioLo, min_def, max_def]

/-- Test fixture: one non-empty category together with an out-of-range
left-column ratio. -/
def oneCatRatioHi : AdditionalInfo :=
  { technicalSkills := some ["Go"], skillsLeftColumnRatio := some 0.9 }

/-- Witness for C3: the layout computed for a concrete input with ratio 0.9
carries the clamped ratio, the complementary right fraction and the clamped
gap. -/
theorem claim_C3_numeric_clamping_witness :
    resolvedRows oneCatRatioHi idLabels ≠ [] ∧
      ∃ L, additionalSectionLayout oneCatRatioHi idLabels = some L ∧
        L.leftRatio = resolvedLeftRatio oneCatRatioHi ∧
        L.rightFraction = 1 - L.leftRatio ∧
        L.gapRem = resolvedGapRem oneCatRatioHi :=
  ⟨by decide, claim_C3_numeric_clamping.2.1 oneCatRatioHi idLabels (by decide)⟩

/-- Characterization of the shared row construction: the surviving rows are
exactly the order entries with non-empty item lists, in order, each carrying
its resolved label and item list. -/
theorem resolvedRows_eq_filter_map (additional : AdditionalInfo)
    (defaultLabels : String → String) :
    resolvedRows additional defaultLabels =
      ((resolvedOrder additional).filter
          (fun key => decide (0 < (itemsOf additional key).length))).map
        (fun key =>
          { key := key, label := labelByKey additional defaultLabels key,
            items := itemsOf additional key }) := by
  rw [resolvedRows]
  induction resolvedOrder additional with
  | nil => rfl
  | cons key rest ih =>
    by_cases h : 0 < (itemsOf additional key).length
    · simp only [List.filterMap_cons, List.filter_cons, if_pos h]
      simp [h, ih]
    · simp only [List.filterMap_cons, List.filter_cons, if_neg h]
      simp [h, ih]

/-- Test fixture: a user-supplied order putting awards before technical
skills, with both categories non-empty. -/
def awardsFirst : AdditionalInfo :=
  { technicalSkills := some ["Go"]
    awards := some ["Award A"]
    additionalSectionOrder := some ["awards", "technicalSkills"] }

/-- C5: for every `AdditionalInfo` input, the display order of additional
categories equals `additionalSectionOrder` when that field is present, and
otherwise equals the fixed default order
`[technicalSkills, languages, certificationsTraining, awards, creativeTools]`;
for example `additionalSectionOrder = [awards, technicalSkills]` with both
categories non-empty places the awards row before the technicalSkills row in
the left/right split. -/
theorem claim_C5_order_resolution :
    (∀ (additional : AdditionalInfo) (order : List String),
      additional.additionalSectionOrder = some order →
        resolvedOrder additional = order) ∧
    (∀ additional : AdditionalInfo,
      additional.additionalSectionOrder = none →
        resolvedOrder additional =
          ["technicalSkills", "languages", "certificationsTraining", "awards",
            "creativeTools"]) ∧
    (∃ L, additionalSectionLayout awardsFirst idLabels = some L ∧
      L.leftRows =
        [{ key := "awards", label := some ("awards"), items := ["Award A"] }] ∧
      L.rightRows =
        [{ key := "technicalSkills", label := some ("technicalSkills"),
           items := ["Go"] }]) := by
  refine ⟨?_, ?_, ?_⟩
  · intro additional order h
    rw [resolvedOrder, h]
    rfl
  · intro additional h
    rw [resolvedOrder, h]
    rfl
  · rw [additionalSectionLayout_eq, if_neg (by decide)]
    exact ⟨_, rfl, by decide, by decide⟩

/-- Witness for C5 at concrete inputs: the user order is used verbatim, and an
input without an order falls back to the default order. -/
theorem claim_C5_order_resolution_witness :
    resolvedOrder awardsFirst = ["awards", "technicalSkills"] ∧
      resolvedOrder emptyAdditional =
        ["technicalSkills", "languages", "certificationsTraining", "awards",
          "creativeTools"] :=
  ⟨claim_C5_order_resolution.1 awardsFirst ["awards", "technicalSkills"] rfl,
    claim_C5_order_resolution.2.1 emptyAdditional rfl⟩

/-- Test fixture: a whitespace-only label override for the awards category,
with a non-empty awards list. -/
def whitespaceAwardsLabel : AdditionalInfo :=
  { awards := some ["Award A"]
    additionalSubsectionLabels := some { awards := some ("   ") } }

/-- C6: for every category key, the resolved row label equals the trimmed
caller-provided override `additionalSubsectionLabels[key]` when that trimmed
string is non-empty, and equals the default label for that key when the
override is absent or trims to the empty string; in particular a
whitespace-only override for awards falls back to the default awards label. -/
theorem claim_C6_label_resolution :
    (∀ (additional : AdditionalInfo) (defaultLabels : String → String) (key : String),
      key ∈ DEFAULT_ADDITIONAL_SECTION_ORDER →
        labelByKey additional defaultLabels key =
          some (trimOrDefault (subLabel additional key) (defaultLabels key))) ∧
    (∀ (s defaultLabel : String), jsTrim s ≠ "" →
      trimOrDefault (some s) defaultLabel = jsTrim s) ∧
    (∀ defaultLabel : String, trimOrDefault none defaultLabel = defaultLabel) ∧
    (∀ (s defaultLabel : String), jsTrim s = "" →
      trimOrDefault (some s) defaultLabel = defaultLabel) ∧
    (∀ defaultLabels : String → String,
      resolvedRows whitespaceAwardsLabel defaultLabels =
        [{ key := "awards", label := some (defaultLabels ("awards")),
           items := ["Award A"] }]) := by
  refine ⟨?_, ?_, fun _ => rfl, ?_, ?_⟩
  · intro additional defaultLabels key hk
    simp only [DEFAULT_ADDITIONAL_SECTION_ORDER, List.mem_cons, List.not_mem_nil,
      or_false] at hk
    rcases hk with rfl | rfl | rfl | rfl | rfl <;> rw [labelByKey, if_pos (by decide)]
  · intro s defaultLabel h
    rw [trimOrDefault, if_neg h]
  · intro s defaultLabel h
    rw [trimOrDefault, if_pos h]
  · intro defaultLabels
    rw [resolvedRows_eq_filter_map]
    have hfil : (resolvedOrder whitespaceAwardsLabel).filter
        (fun key => decide (0 < (itemsOf whitespaceAwardsLabel key).length)) =
          ["awards"] := by decide
    rw [hfil, List.map_cons, List.map_nil]
    have hlab : labelByKey whitespaceAwardsLabel defaultLabels ("awards") =
        some (defaultLabels ("awards")) := by
      rw [labelByKey, if_pos (by decide)]
      have hsub : subLabel whitespaceAwardsLabel ("awards") = some ("   ") := rfl
      rw [hsub, trimOrDefault, if_pos (by decide)]
    rw [hlab]
    have hitems : itemsOf whitespaceAwardsLabel ("awards") = ["Award A"] := rfl
    rw [hitems]

/-- Witness for C6 at concrete strings: a non-blank override wins after
trimming, while space-only and vertical-tab-only overrides (both JS
whitespace) fall back to the default. -/
theorem claim_C6_label_resolution_witness :
    trimOrDefault (some ("  Custom Label ")) ("Default") = jsTrim ("  Custom Label ") ∧
      trimOrDefault (some ("   ")) ("Default") = "Default" ∧
      trimOrDefault (some ("\u000B")) ("Default") = "Default" :=
  ⟨claim_C6_label_resolution.2.1 ("  Custom Label ") ("Default") (by decide),
    claim_C6_label_resolution.2.2.2.1 ("   ") ("Default") (by decide),
    claim_C6_label_resolution.2.2.2.1 ("\u000B") ("Default") (by decide)⟩

/-- Embedding of the JS `Array.prototype.indexOf` used by `handleDragEnd`:
the index of the first occurrence, or -1 when the element is absent. -/
def jsIndexOf (l : List String) (x : String) : Int :=
  match l with
  | [] => -1
  | a :: rest =>
    if a = x then 0
    else
      let r := jsIndexOf rest x
      if r = -1 then -1 else r + 1

/-- Embedding of `handleDragEnd` of the additional form (lines 175-187): when
the drop target is missing, equal to the dragged key, or either key is not
found in the order, the order is returned unchanged (the source returns
without calling `onChange`); otherwise the element at `oldIndex` is spliced
out and re-inserted at `newIndex`. -/
def handleDragEnd (order : List String) (activeId : String)
    (overId : Option String) : List String :=
  match overId with
  | none => order
  | some o =>
    if activeId = o then order
    else
      let oldIndex := jsIndexOf order activeId
      let newIndex := jsIndexOf order o
      if oldIndex = -1 ∨ newIndex = -1 then order
      else
        let removed := order.getD oldIndex.toNat ("")
        let rest := order.eraseIdx oldIndex.toNat
        rest.take newIndex.toNat ++ removed :: rest.drop newIndex.toNat

/-- The recursive `jsIndexOf` agrees with `List.indexOf` on present elements
and returns -1 on absent ones. -/
theorem jsIndexOf_eq (l : List String) (x : String) :
    jsIndexOf l x = if x ∈ l then (List.indexOf x l : Int) else -1 := by
  induction l with
  | nil => simp [jsIndexOf]
  | cons a rest ih =>
    rw [jsIndexOf]
    by_cases hax : a = x
    · subst hax
      simp [List.indexOf_cons_self]
    · rw [if_neg hax, ih]
      by_cases hmem : x ∈ rest
      · rw [if_pos hmem]
        have hne : (List.indexOf x rest : Int) ≠ -1 := by
          have := Int.natCast_nonneg (List.indexOf x rest)
          omega
        rw [if_neg hne, if_pos (List.mem_cons_of_mem a hmem)]
        rw [List.indexOf_cons_ne rest hax]
        push_cast
        ring
      · have hnc : x ∉ a :: rest := by
          intro hx
          rcases List.mem_cons.mp hx with h1 | h2
          · exact hax h1.symm
          · exact hmem h2
        rw [if_neg hmem, if_pos rfl, if_neg hnc]

/-- Inserting an element at position `j` of a list puts it at index `j` of the
result. -/
theorem splice_getElem (l : List String) (x : String) (j : ℕ) (hj : j ≤ l.length) :
    (l.take j ++ x :: l.drop j)[j]? = some x := by
  have hlen : (l.take j).length = j := by
    rw [List.length_take]
    omega
  rw [List.getElem?_append_right (by omega), hlen, Nat.sub_self]
  simp

/-- Removing the element just inserted at position `j` restores the original
list. -/
theorem splice_eraseIdx (l : List String) (x : String) (j : ℕ) (hj : j ≤ l.length) :
    (l.take j ++ x :: l.drop j).eraseIdx j = l := by
  induction j generalizing l with
  | zero => simp [List.eraseIdx]
  | succ n ih =>
    cases l with
    | nil => simp at hj
    | cons a rest =>
      simp only [List.take_succ_cons, List.drop_succ_cons, List.cons_append,
        List.eraseIdx_cons_succ]
      rw [ih rest (by simpa using hj)]

/-- Inserting an element at any position yields a permutation of pushing it to
the front. -/
theorem splice_perm (l : List String) (x : String) (j : ℕ) :
    (l.take j ++ x :: l.drop j).Perm (x :: l) := by
  refine (List.perm_middle).trans ?_
  rw [List.take_append_drop]

/-- Defaulted lookup at an element's first index returns the element. -/
theorem getD_indexOf (l : List String) (a : String) (h : a ∈ l) :
    l.getD (List.indexOf a l) ("") = a := by
  have hlt : List.indexOf a l < l.length := List.indexOf_lt_length.mpr h
  rw [List.getD_eq_getElem l _ hlt]
  exact List.getElem_indexOf hlt

/-- A list is a permutation of its member pulled to the front followed by the
list with that member's first occurrence erased. -/
theorem eraseIdx_indexOf_perm (l : List String) (a : String) (h : a ∈ l) :
    l.Perm (a :: l.eraseIdx (List.indexOf a l)) := by
  have hlt : List.indexOf a l < l.length := List.indexOf_lt_length.mpr h
  have h1 : l = l.take (List.indexOf a l) ++ a :: l.drop (List.indexOf a l + 1) := by
    conv_lhs => rw [← List.take_append_drop (List.indexOf a l) l]
    rw [List.drop_eq_getElem_cons hlt, List.getElem_indexOf hlt]
  rw [List.eraseIdx_eq_take_drop_succ]
  conv_lhs => rw [h1]
  exact List.perm_middle

/-- C7: for every order list and every valid pair of positions i (the dragged
key's index) and j (the drop target's index) with i ≠ j, the drag-end handler
produces a permutation of the old order in which the element formerly at
position i now sits at position j (erasing position j of the result recovers
the old order without that element, so all other elements keep their relative
order); when either key is not found, or the drag ends on its own position,
the order is left unchanged. -/
theorem claim_C7_drag_end_reorder :
    (∀ (order : List String) (a b : String), a ∈ order → b ∈ order → a ≠ b →
      (handleDragEnd order a (some b))[List.indexOf b order]? = some a ∧
      (handleDragEnd order a (some b)).eraseIdx (List.indexOf b order) =
        order.eraseIdx (List.indexOf a order) ∧
      (handleDragEnd order a (some b)).Perm order) ∧
    (∀ (order : List String) (a : String), handleDragEnd order a none = order) ∧
    (∀ (order : List String) (a : String), handleDragEnd order a (some a) = order) ∧
    (∀ (order : List String) (a b : String), a ∉ order →
      handleDragEnd order a (some b) = order) ∧
    (∀ (order : List String) (a b : String), b ∉ order →
      handleDragEnd order a (some b) = order) := by
  refine ⟨?_, fun _ _ => rfl, ?_, ?_, ?_⟩
  · intro order a b ha hb hab
    have e1 : jsIndexOf order a = ((List.indexOf a order : ℕ) : ℤ) := by
      rw [jsIndexOf_eq, if_pos ha]
    have e2 : jsIndexOf order b = ((List.indexOf b order : ℕ) : ℤ) := by
      rw [jsIndexOf_eq, if_pos hb]
    have hia : List.indexOf a order < order.length := List.indexOf_lt_length.mpr ha
    have hib : List.indexOf b order < order.length := List.indexOf_lt_length.mpr hb
    have hres : handleDragEnd order a (some b) =
        (order.eraseIdx (List.indexOf a order)).take (List.indexOf b order) ++
          a :: (order.eraseIdx (List.indexOf a order)).drop (List.indexOf b order) := by
      simp only [handleDragEnd]
      rw [if_neg hab, e1, e2, if_neg (by omega), Int.toNat_natCast, Int.toNat_natCast,
        getD_indexOf order a ha]
    have hlen : List.indexOf b order ≤ (order.eraseIdx (List.indexOf a order)).length := by
      rw [List.length_eraseIdx, if_pos hia]
      omega
    rw [hres]
    refine ⟨splice_getElem _ a _ hlen, splice_eraseIdx _ a _ hlen, ?_⟩
    exact (splice_perm _ a _).trans (eraseIdx_indexOf_perm order a ha).symm
  · intro order a
    simp [handleDragEnd]
  · intro order a b ha
    by_cases hab : a = b
    · simp [handleDragEnd, hab]
    · simp only [handleDragEnd]
      rw [if_neg hab, if_pos (Or.inl (by rw [jsIndexOf_eq, if_neg ha]))]
  · intro order a b hb
    by_cases hab : a = b
    · simp [handleDragEnd, hab]
    · simp only [handleDragEnd]
      rw [if_neg hab, if_pos (Or.inr (by rw [jsIndexOf_eq, if_neg hb]))]

/-- Witness for C7: dragging the awards key onto the technicalSkills position
of the default order moves it there, keeps the other keys in relative order,
and permutes the order. -/
theorem claim_C7_drag_end_reorder_witness :
    (handleDragEnd DEFAULT_ADDITIONAL_SECTION_ORDER ("awards")
        (some ("technicalSkills")))[List.indexOf ("technicalSkills")
          DEFAULT_ADDITIONAL_SECTION_ORDER]? = some ("awards") ∧
      (handleDragEnd DEFAULT_ADDITIONAL_SECTION_ORDER ("awards")
          (some ("technicalSkills"))).eraseIdx
            (List.indexOf ("technicalSkills") DEFAULT_ADDITIONAL_SECTION_ORDER) =
        DEFAULT_ADDITIONAL_SECTION_ORDER.eraseIdx
          (List.indexOf ("awards") DEFAULT_ADDITIONAL_SECTION_ORDER) ∧
      (handleDragEnd DEFAULT_ADDITIONAL_SECTION_ORDER ("awards")
          (some ("technicalSkills"))).Perm DEFAULT_ADDITIONAL_SECTION_ORDER :=
  claim_C7_drag_end_reorder.1 DEFAULT_ADDITIONAL_SECTION_ORDER ("awards")
    ("technicalSkills") (by decide) (by decide) (by decide)

/-- Character class used for word boundaries: letters and digits form
alphanumeric runs. -/
def isAlnumChar (c : Char) : Bool := c.isAlpha || c.isDigit

/-- Modelled from the spec: the left word boundary of a keyword match.  The
match must not start in the interior of a larger alphanumeric run: if both the
preceding character and the keyword's first character are alphanumeric the
boundary is violated. -/
def boundaryBefore (prev : Option Char) (k : List Char) : Bool :=
  match prev, k with
  | some c, kc :: _ => !(isAlnumChar c && isAlnumChar kc)
  | _, _ => true

/-- Modelled from the spec: the right word boundary of a keyword match.  The
match must not end in the interior of a larger alphanumeric run: if both the
keyword's last character and the following character are alphanumeric the
boundary is violated. -/
def boundaryAfter (k : List Char) (rest : List Char) : Bool :=
  match k.getLast?, rest with
  | some kc, c :: _ => !(isAlnumChar kc && isAlnumChar c)
  | _, _ => true

/-- Modelled from the spec: whether a non-empty keyword matches
case-insensitively at the current scan position (given the previous consumed
character), with both word boundaries respected. -/
def matchesHere (prev : Option Char) (text k : List Char) : Bool :=
  !k.isEmpty &&
  (List.map Char.toLower (text.take k.length) == List.map Char.toLower k) &&
  boundaryBefore prev k &&
  boundaryAfter k (text.drop k.length)

/-- Modelled from the spec: the greedy longest-match policy — the length of
the longest keyword matching at the current position, or 0 when none does. -/
def bestLen (kws : List (List Char)) (prev : Option Char) (text : List Char) : Nat :=
  kws.foldr
    (fun k acc => if matchesHere prev text k && decide (acc < k.length) then k.length else acc)
    0

/-- Modelled from the spec: the left-to-right scan.  At each position, consume
the longest boundary-respecting keyword match as a matched span (preserving
the original casing, and resuming immediately after it), otherwise consume a
single unmatched character. -/
def segLoop (kws : List (List Char)) (prev : Option Char) (text : List Char) :
    List (Bool × List Char) :=
  match text with
  | [] => []
  | c :: rest =>
    let n := bestLen kws prev (c :: rest)
    if 0 < n then
      (true, (c :: rest).take n) ::
        segLoop kws ((c :: rest).take n).getLast? ((c :: rest).drop n)
    else
      (false, [c]) :: segLoop kws (some c) rest
termination_by text.length
decreasing_by
  · simp only [List.length_drop, List.length_cons]
    omega
  · simp only [List.length_cons]
    omega

/-- Merge adjacent raw spans with the same matched/unmatched flag, so that
unmatched characters coalesce into maximal runs. -/
def coalesce : List (Bool × List Char) → List (Bool × List Char)
  | [] => []
  | [s] => [s]
  | (b1, t1) :: (b2, t2) :: rest =>
    if b1 == b2 then coalesce ((b1, t1 ++ t2) :: rest)
    else (b1, t1) :: coalesce ((b2, t2) :: rest)
termination_by l => l.length

/-- One output segment of the keyword segmenter: a contiguous substring of the
input together with its highlight flag. -/
structure Segment where
  text : List Char
  isMatch : Bool
deriving DecidableEq, Repr

/-- Modelled from the spec: `segmentTextByKeywords` of
`lib/utils/keyword-matcher`, whose source is not part of the corpus (only its
caller in the highlight view is).  Per the spec: an empty keyword set or empty
text yields a single unmatched segment covering the whole input; otherwise the
text is scanned left to right, flagging greedy longest boundary-aware
case-insensitive keyword matches and coalescing the unmatched remainder. -/
def segmentTextByKeywords (text : List Char) (keywords : List (List Char)) :
    List Segment :=
  if keywords.isEmpty || text.isEmpty then [{ text := text, isMatch := false }]
  else (coalesce (segLoop keywords none text)).map
    (fun s => { text := s.2, isMatch := s.1 })

/-- Concatenation of raw span texts. -/
def concatSpans (l : List (Bool × List Char)) : List Char :=
  l.foldr (fun s acc => s.2 ++ acc) []

/-- Concatenation of the text fields of a segment list. -/
def concatSegments (l : List Segment) : List Char :=
  l.foldr (fun s acc => s.text ++ acc) []

/-- The scan emits spans that partition the input text. -/
theorem segLoop_concat (kws : List (List Char)) (prev : Option Char)
    (text : List Char) : concatSpans (segLoop kws prev text) = text := by
  induction prev, text using segLoop.induct kws with
  | case1 prev => simp [segLoop, concatSpans]
  | case2 prev c rest n h ih =>
    rw [segLoop]
    simp only [concatSpans, List.foldr_cons] at ih ⊢
    rw [if_pos h]
    simp only [List.foldr_cons]
    rw [ih]
    exact List.take_append_drop _ _
  | case3 prev c rest n h ih =>
    rw [segLoop]
    simp only [concatSpans, List.foldr_cons] at ih ⊢
    rw [if_neg h]
    simp only [List.foldr_cons]
    rw [ih]
    rfl

/-- Coalescing adjacent equal-flag spans preserves the concatenation. -/
theorem coalesce_concat (l : List (Bool × List Char)) :
    concatSpans (coalesce l) = concatSpans l := by
  induction l using coalesce.induct with
  | case1 => rw [coalesce]
  | case2 s => rw [coalesce]
  | case3 b1 t1 b2 t2 rest h ih =>
    rw [coalesce, if_pos h]
    simp only [concatSpans, List.foldr_cons] at ih ⊢
    rw [ih, List.append_assoc]
  | case4 b1 t1 b2 t2 rest h ih =>
    rw [coalesce, if_neg h]
    simp only [concatSpans, List.foldr_cons] at ih ⊢
    rw [ih]

/-- C8: for all inputs text and keywords, concatenating the text fields of the
segments returned by the segmenter, in order, reproduces the input text
exactly — the segments form a contiguous, gap-free partition of the input. -/
theorem claim_C8_segment_reconstruction (text : List Char)
    (keywords : List (List Char)) :
    concatSegments (segmentTextByKeywords text keywords) = text := by
  rw [segmentTextByKeywords]
  by_cases h : (keywords.isEmpty || text.isEmpty) = true
  · rw [if_pos h]
    simp [concatSegments]
  · rw [if_neg h]
    have hmap : ∀ l : List (Bool × List Char),
        concatSegments (l.map (fun s => ({ text := s.2, isMatch := s.1 } : Segment))) =
          concatSpans l := by
      intro l
      induction l with
      | nil => rfl
      | cons s rest ih =>
        simp only [List.map_cons, concatSegments, concatSpans, List.foldr_cons] at ih ⊢
        rw [ih]
    rw [hmap, coalesce_concat, segLoop_concat]

/-- Embedding of the `PersonalInfo` object as used by the personal-info form:
the eight optional string fields the form binds and edits. -/
structure PersonalInfo where
  name : Option String := none
  title : Option String := none
  email : Option String := none
  phone : Option String := none
  location : Option String := none
  website : Option String := none
  linkedin : Option String := none
  github : Option String := none
deriving DecidableEq, Repr

/-- The field keys of `PersonalInfo` editable through `handleChange`. -/
inductive PersonalInfoField where
  | name
  | title
  | email
  | phone
  | location
  | website
  | linkedin
  | github
deriving DecidableEq, Repr

/-- Field projection of `PersonalInfo` by key. -/
def personalField (data : PersonalInfo) : PersonalInfoField → Option String
  | .name => data.name
  | .title => data.title
  | .email => data.email
  | .phone => data.phone
  | .location => data.location
  | .website => data.website
  | .linkedin => data.linkedin
  | .github => data.github

/-- Embedding of `handleChange` of the personal-info form (lines 28-33):
`onChange({...data, [field]: value})` — a fresh object equal to the input with
the one computed key replaced. -/
def handleChange (data : PersonalInfo) (field : PersonalInfoField)
    (value : String) : PersonalInfo :=
  match field with
  | .name => { data with name := some value }
  | .title => { data with title := some value }
  | .email => { data with email := some value }
  | .phone => { data with phone := some value }
  | .location => { data with location := some value }
  | .website => { data with website := some value }
  | .linkedin => { data with linkedin := some value }
  | .github => { data with github := some value }

/-- The five category keys of `AdditionalInfo` editable through
`handleArrayChange`, as the closed TS union `AdditionalSectionKey`. -/
inductive AdditionalSectionKey where
  | technicalSkills
  | languages
  | certificationsTraining
  | awards
  | creativeTools
deriving DecidableEq, Repr

/-- Category-list projection of `AdditionalInfo` by key. -/
def categoryField (data : AdditionalInfo) : AdditionalSectionKey → Option (List String)
  | .technicalSkills => data.technicalSkills
  | .languages => data.languages
  | .certificationsTraining => data.certificationsTraining
  | .awards => data.awards
  | .creativeTools => data.creativeTools

/-- Embedding of `handleArrayChange` of the additional form (lines 148-154):
split the textarea value on newlines, drop blank lines, and replace the one
computed category key of a fresh object with the resulting item list. -/
def handleArrayChange (data : AdditionalInfo) (field : AdditionalSectionKey)
    (value : String) : AdditionalInfo :=
  let items := (value.splitOn ("\n")).filter (fun item => jsTrim item != "")
  match field with
  | .technicalSkills => { data with technicalSkills := some items }
  | .languages => { data with languages := some items }
  | .certificationsTraining => { data with certificationsTraining := some items }
  | .awards => { data with awards := some items }
  | .creativeTools => { data with creativeTools := some items }

/-- C9: every form edit handler produces a brand-new data object by
whole-object replacement (the embedding is a pure function of the input, so
the input value is never altered): for any single-field edit, the edited field
holds the new value and all fields of the returned object other than the
edited field are equal to the corresponding fields of the input object. -/
theorem claim_C9_immutable_updates :
    (∀ (data : PersonalInfo) (field : PersonalInfoField) (value : String),
      personalField (handleChange data field value) field = some value ∧
        ∀ other : PersonalInfoField, other ≠ field →
          personalField (handleChange data field value) other =
            personalField data other) ∧
    (∀ (data : AdditionalInfo) (field : AdditionalSectionKey) (value : String),
      categoryField (handleArrayChange data field value) field =
          some ((value.splitOn ("\n")).filter (fun item => jsTrim item != "")) ∧
        (∀ other : AdditionalSectionKey, other ≠ field →
          categoryField (handleArrayChange data field value) other =
            categoryField data other) ∧
        (handleArrayChange data field value).additionalSectionOrder =
          data.additionalSectionOrder ∧
        (handleArrayChange data field value).additionalSubsectionLabels =
          data.additionalSubsectionLabels ∧
        (handleArrayChange data field value).skillsLeftColumnRatio =
          data.skillsLeftColumnRatio ∧
        (handleArrayChange data field value).skillsColumnGapRem =
          data.skillsColumnGapRem) := by
  constructor
  · intro data field value
    constructor
    · cases field <;> rfl
    · intro other hne
      cases field <;> cases other <;> first | rfl | exact absurd rfl hne
  · intro data field value
    refine ⟨?_, ?_, ?_, ?_, ?_, ?_⟩
    · cases field <;> rfl
    · intro other hne
      cases field <;> cases other <;> first | rfl | exact absurd rfl hne
    · cases field <;> rfl
    · cases field <;> rfl
    · cases field <;> rfl
    · cases field <;> rfl

/-- Test fixture: a concrete `PersonalInfo` with two fields set. -/
def samplePersonal : PersonalInfo :=
  { name := some ("Ada"), email := some ("ada@example.com") }

/-- Witness for C9: editing the name leaves the email untouched, and editing
the awards category leaves the languages category and the section order
untouched, at concrete inputs. -/
theorem claim_C9_immutable_updates_witness :
    personalField (handleChange samplePersonal PersonalInfoField.name ("Grace"))
        PersonalInfoField.email = personalField samplePersonal PersonalInfoField.email ∧
      categoryField
          (handleArrayChange threeCats AdditionalSectionKey.awards ("A1\n\nA2"))
          AdditionalSectionKey.languages = categoryField threeCats
            AdditionalSectionKey.languages :=
  ⟨(claim_C9_immutable_updates.1 samplePersonal PersonalInfoField.name ("Grace")).2
      PersonalInfoField.email (by decide),
    (claim_C9_immutable_updates.2 threeCats AdditionalSectionKey.awards
        ("A1\n\nA2")).2.1 AdditionalSectionKey.languages (by decide)⟩

/-- Bridge: the inline computation of `resumeModernTwoColumnLayout` is
definitionally the computation through the named helpers. -/
theorem resumeModernTwoColumnLayout_eq (additional : AdditionalInfo)
    (defaultLabels : String → String) :
    resumeModernTwoColumnLayout additional defaultLabels =
      (if (resolvedRows additional defaultLabels).length = 0 then none
       else some {
        leftRows := (resolvedRows additional defaultLabels).take
          (((resolvedRows additional defaultLabels).length + 1) / 2)
        rightRows := (resolvedRows additional defaultLabels).drop
          (((resolvedRows additional defaultLabels).length + 1) / 2)
        leftRatio := resolvedLeftRatio additional
        rightFraction := 1 - resolvedLeftRatio additional
        gapRem := resolvedGapRem additional }) := rfl

/-- Embedding of the dedicated certifications/training section in the main
column of `ResumeModernTwoColumn` (part_001, lines 307-322): it renders the
certification items exactly when the additional section is visible and
`additional?.certificationsTraining` is a non-empty list. -/
def modernTwoColumnMainCerts (visibleAdditional : Bool)
    (additional : Option AdditionalInfo) : Option (List String) :=
  match additional with
  | none => none
  | some a =>
    match a.certificationsTraining with
    | none => none
    | some certs =>
      if visibleAdditional && decide (0 < certs.length) then some certs else none

/-- Embedding of the sidebar additional block of `ResumeModernTwoColumn`
(part_001, lines 368-433): rendered exactly when the additional section is
visible and the additional object is present, with the shared layout
resolution inside. -/
def modernTwoColumnSidebarLayout (visibleAdditional : Bool)
    (additional : Option AdditionalInfo)
    (defaultLabels : String → String) : Option Layout :=
  match additional with
  | none => none
  | some a =>
    if visibleAdditional then resumeModernTwoColumnLayout a defaultLabels else none

/-- C10: in the `ResumeModernTwoColumn` template, whenever the additional
section is visible and certificationsTraining is non-empty (and, per the data
model invariant, present in the resolved order), the certification items are
rendered twice: once as a dedicated main-column section and again as a row of
the sidebar's two-column additional block, which does not exclude
certificationsTraining from its row list. -/
theorem claim_C10_certifications_rendered_twice (additional : AdditionalInfo)
    (certs : List String) (defaultLabels : String → String)
    (hcerts : additional.certificationsTraining = some certs) (hne : certs ≠ [])
    (horder : ("certificationsTraining") ∈ resolvedOrder additional) :
    modernTwoColumnMainCerts true (some additional) = some certs ∧
      ∃ L, modernTwoColumnSidebarLayout true (some additional) defaultLabels = some L ∧
        { key := ("certificationsTraining")
          label := labelByKey additional defaultLabels ("certificationsTraining")
          items := certs } ∈ L.leftRows ++ L.rightRows := by
  have hitems : itemsOf additional ("certificationsTraining") = certs := by
    simp [itemsOf, hcerts]
  constructor
  · rw [modernTwoColumnMainCerts, hcerts]
    have hpos : 0 < certs.length := List.length_pos.mpr hne
    simp [hpos]
  · have hmem : ({ key := ("certificationsTraining"),
                   label := labelByKey additional defaultLabels ("certificationsTraining"),
                   items := certs } : Row) ∈ resolvedRows additional defaultLabels := by
      rw [resolvedRows_eq_filter_map]
      refine List.mem_map.mpr ⟨("certificationsTraining"), ?_, ?_⟩
      · refine List.mem_filter.mpr ⟨horder, ?_⟩
        rw [hitems]
        exact decide_eq_true (List.length_pos.mpr hne)
      · rw [hitems]
    have hlen : (resolvedRows additional defaultLabels).length ≠ 0 := by
      intro h0
      rw [List.length_eq_zero] at h0
      rw [h0] at hmem
      exact absurd hmem (List.not_mem_nil _)
    rw [modernTwoColumnSidebarLayout]
    rw [if_pos rfl, resumeModernTwoColumnLayout_eq, if_neg hlen]
    refine ⟨_, rfl, ?_⟩
    rw [List.take_append_drop]
    exact hmem

/-- Test fixture: only certifications present, with the default order. -/
def certsOnly : AdditionalInfo := { certificationsTraining := some ["Cert1"] }

/-- Witness for C10: with one concrete certification item, the main column
renders it and the sidebar block carries its row. -/
theorem claim_C10_certifications_rendered_twice_witness :
    modernTwoColumnMainCerts true (some certsOnly) = some ["Cert1"] ∧
      ∃ L, modernTwoColumnSidebarLayout true (some certsOnly) idLabels = some L ∧
        { key := ("certificationsTraining")
          label := labelByKey certsOnly idLabels ("certificationsTraining")
          items := ["Cert1"] } ∈ L.leftRows ++ L.rightRows :=
  claim_C10_certifications_rendered_twice certsOnly ["Cert1"] idLabels rfl
    (by decide) (by decide)

end Resu
